import Mathlib

/-!
Verification of the go-figgy parameter-loading library.

The definitions below are a shallow embedding of the library's source
(`figgy.go`): the tag parser (`tag`), the field walker (`walkFields`), the
stable-partition and batching helpers (`partitionFields`,
`batchIterateFields`), the store-fetch orchestration (`getParameters`,
`loadParameters`) and the value converter (`set`).  Go strings are modelled
as Lean `String`s manipulated through their character lists, Go machine
integers as `Int`/`Nat` with explicit width checks mirroring the source's
`OverflowInt`/`OverflowUint` calls, and fallible operations return
`Option`/`Except` or an explicit error component.  External collaborators
(the SSM store client, `encoding/json`, the user-supplied
`UnmarshalParameter` implementation, `text/template`, `time.ParseDuration`)
are modelled as function parameters or, where the spec pins their contract,
as definitions marked "Modelled from the spec".
-/

namespace Figgy

/-- Split a character list at every occurrence of `sep`, keeping empty
segments; mirrors Go `strings.Split` for a one-character separator
(`strings.Split("", sep) = [""]`). -/
def splitOnChar (sep : Char) : List Char → List (List Char)
  | [] => [[]]
  | c :: cs =>
      match splitOnChar sep cs with
      | [] => [[c]]
      | h :: t => if c = sep then [] :: h :: t else (c :: h) :: t

/-- Go `strings.Split(s, ",")`. -/
def goSplitComma (s : String) : List String :=
  (splitOnChar ',' s.data).map fun l => ⟨l⟩

/-- Go `strings.TrimSpace`: drop leading and trailing whitespace. -/
def goTrim (s : String) : String :=
  ⟨((s.data.dropWhile Char.isWhitespace).reverse.dropWhile Char.isWhitespace).reverse⟩

/-- Go `strings.Join`. -/
def goJoin (sep : String) : List String → String
  | [] => ""
  | [x] => x
  | x :: y :: xs => x ++ sep ++ goJoin sep (y :: xs)

/-- Accumulate a base-10 natural number; `none` on any non-digit.
An empty list yields `some 0`; callers reject empty digit runs. -/
def parseDigits (cs : List Char) : Option Nat :=
  cs.foldl
    (fun acc c =>
      match acc with
      | none => none
      | some n => if c.isDigit then some (n * 10 + (c.toNat - 48)) else none)
    (some 0)

/-- Go `strconv.ParseInt(s, 10, 64)`: optional sign, one or more decimal
digits, result must fit in a signed 64-bit integer. -/
def parseInt64 (s : String) : Option Int :=
  let (neg, ds) :=
    match s.data with
    | '+' :: r => (false, r)
    | '-' :: r => (true, r)
    | r => (false, r)
  if ds.isEmpty then none
  else
    match parseDigits ds with
    | none => none
    | some n =>
        let v : Int := if neg then -(n : Int) else (n : Int)
        if v < -(2 ^ 63) ∨ 2 ^ 63 - 1 < v then none else some v

/-- Go `strconv.ParseUint(s, 10, 64)`: no sign permitted, one or more
decimal digits, result must fit in an unsigned 64-bit integer. -/
def parseUint64 (s : String) : Option Nat :=
  if s.data.isEmpty then none
  else
    match parseDigits s.data with
    | none => none
    | some n => if 2 ^ 64 - 1 < n then none else some n

/-- Go `strconv.ParseBool`: the fixed list of accepted literals. -/
def parseGoBool (s : String) : Option Bool :=
  if s = "1" ∨ s = "t" ∨ s = "T" ∨ s = "TRUE" ∨ s = "true" ∨ s = "True" then some true
  else if s = "0" ∨ s = "f" ∨ s = "F" ∨ s = "FALSE" ∨ s = "false" ∨ s = "False" then some false
  else none

/-- Go `reflect.Value.OverflowInt` for a target of width `bits`. -/
def overflowInt (bits : Nat) (n : Int) : Bool :=
  decide (n < -(2 ^ (bits - 1))) || decide (2 ^ (bits - 1) - 1 < n)

/-- Go `reflect.Value.OverflowUint` for a target of width `bits`. -/
def overflowUint (bits : Nat) (n : Nat) : Bool :=
  decide (2 ^ bits - 1 < n)

/-- Nanoseconds per recognized duration unit suffix. -/
def durUnitNanos : String → Option Int
  | "ns" => some 1
  | "us" => some 1000
  | "ms" => some 1000000
  | "s" => some 1000000000
  | "m" => some 60000000000
  | "h" => some 3600000000000
  | _ => none

/-- Modelled from the spec: one pass of the external
duration-with-unit-suffix parser (`time.ParseDuration`, outside this
repository): repeatedly read a run of decimal digits followed by a unit
suffix, summing `count * unit` in nanoseconds; a missing or unknown unit
(in particular a digits-only text) is a parse failure.  `fuel` bounds the
number of components; each component consumes at least one character, so
the input length is always enough fuel. -/
def parseDurationAux : Nat → List Char → Int → Option Int
  | _, [], acc => some acc
  | 0, _ :: _, _ => none
  | fuel + 1, cs, acc =>
      let digits := cs.takeWhile Char.isDigit
      let rest := cs.dropWhile Char.isDigit
      if digits.isEmpty then none
      else
        match parseDigits digits with
        | none => none
        | some n =>
            let unitChars := rest.takeWhile fun c => !c.isDigit
            let rest' := rest.dropWhile fun c => !c.isDigit
            match durUnitNanos ⟨unitChars⟩ with
            | none => none
            | some mult => parseDurationAux fuel rest' (acc + (n : Int) * mult)

/-- Modelled from the spec: the external `time.ParseDuration` entry point:
optional sign, the special case `"0"`, then unit-suffixed components.
Returns the total in nanoseconds, or `none` on a parse failure. -/
def parseGoDuration (s : String) : Option Int :=
  let (neg, cs) :=
    match s.data with
    | '+' :: r => (false, r)
    | '-' :: r => (true, r)
    | r => (false, r)
  if cs = ['0'] then some 0
  else if cs.isEmpty then none
  else
    match parseDurationAux cs.length cs 0 with
    | none => none
    | some v => some (if neg then -v else v)

/-- The closed universe of field types the converter dispatches on:
Go kinds handled by `set`, plus `custom` (a named type implementing
`Unmarshaler`) and `unsupported` (any kind the switch has no case for,
e.g. maps — the source falls through and returns `nil`). -/
inductive Ty where
  | string
  | bool
  | int (bits : Nat)
  | uint (bits : Nat)
  | duration
  | ptr (elem : Ty)
  | slice (elem : Ty)
  | custom
  | unsupported
deriving DecidableEq, Repr

/-- Runtime values inhabiting `Ty`. -/
inductive Val where
  | str (s : String)
  | boolean (b : Bool)
  | intv (n : Int)
  | uintv (n : Nat)
  | durv (n : Int)
  | ptrv (target : Option Val)
  | slicev (elems : List Val)
  | customv (state : Option String)
  | unsup
deriving Repr

/-- The zero value of each type (`reflect.New(t).Elem()`). -/
def zeroVal : Ty → Val
  | .string => .str ""
  | .bool => .boolean false
  | .int _ => .intv 0
  | .uint _ => .uintv 0
  | .duration => .durv 0
  | .ptr _ => .ptrv none
  | .slice _ => .slicev []
  | .custom => .customv none
  | .unsupported => .unsup

/-- `reflect.Type.String()` for the modelled universe. -/
def typeName : Ty → String
  | .string => "string"
  | .bool => "bool"
  | .int bits => "int" ++ toString bits
  | .uint bits => "uint" ++ toString bits
  | .duration => "time.Duration"
  | .ptr e => "*" ++ typeName e
  | .slice e => "[]" ++ typeName e
  | .custom => "figgy.str"
  | .unsupported => "map[string]string"

/-- The source's `unmarshaler(v)` probe: a value of a named custom type
(or a pointer to one, through the pointer method set) satisfies the
`Unmarshaler` interface; nothing else in the universe does. -/
def hasUnmarshaler : Ty → Bool
  | .custom => true
  | .ptr .custom => true
  | _ => false

/-- The errors `set` can produce, keeping the source's message data:
`cannotSet` (unsettable value), `configConflict` (custom unmarshaller and
`json` tag both present; carries `field.Name` and `field.Type.String()`),
`customErr` (error returned by `UnmarshalParameter`), `jsonErr`
(`setJSON` failure; carries the field name), and `convertType`
(`ConvertTypeError` with `Field`, `Type`, `Value`). -/
inductive SetError where
  | cannotSet (tyName : String)
  | configConflict (fieldName tyName : String)
  | customErr (msg : String)
  | jsonErr (fieldName : String)
  | convertType (fieldName tyName value : String)
deriving DecidableEq, Repr

/-- The message rendered for each `set` error, following the source's
`Error()` methods and `fmt.Errorf` format strings. -/
def setErrorMessage : SetError → String
  | .cannotSet t => t ++ " cannot be set"
  | .configConflict n t =>
      "cannot use 'json' option on a type with a custom unmarshaller: " ++ n ++ " " ++ t
  | .customErr m => m
  | .jsonErr n => "json unmarshal error for field '" ++ n ++ "'"
  | .convertType f t v =>
      if f ≠ "" ∨ t ≠ "" then "failed to convert '" ++ v ++ "' to " ++ t ++ " for field " ++ f
      else "failed to convert '" ++ v ++ "'"

/-- The source's `field` record: remote key, `decrypt` and `json` flags,
the bound slot (modelled as its type `ty` plus current contents `value`),
and the `reflect.StructField` metadata used for error reporting
(`fieldName` for `field.Name`, `fieldTypeName` for `field.Type.String()`).
All modelled slots are settable, so the source's `CanSet` guard (which
only fires on unsettable reflect values) has no failing instance here. -/
structure field where
  key : String
  decrypt : Bool
  json : Bool
  ty : Ty
  value : Val
  fieldName : String
  fieldTypeName : String
deriving Repr

/-- The converter `set`, as a function from the bound slot's type and
current contents to its new contents plus an optional error.  `u` is the
user-supplied `UnmarshalParameter` implementation and `jdec` the external
`encoding/json` decoder (`none` = decode failure), both outside this
repository.  Dispatch order follows the source: custom unmarshaller
(conflict with `json` checked first), then `json`, then the
`time.Duration` special case falling through to the kind switch.
Recursive calls (pointer target, slice elements) pass a fresh zero `field`
exactly as the source's `set(&field{value: ...}, s)` does, and their
return values are discarded exactly where the source discards them. -/
def setVal (u : String → Except String Val) (jdec : String → Ty → Option Val) :
    Ty → Val → Bool → String → String → String → Val × Option SetError
  | ty, cur, json, fname, ftyName, s =>
    if hasUnmarshaler ty then
      if json then (cur, some (.configConflict fname ftyName))
      else
        match u s with
        | .ok w => (w, none)
        | .error m => (cur, some (.customErr m))
    else if json then
      match jdec s ty with
      | some w => (w, none)
      | none => (cur, some (.jsonErr fname))
    else
      match ty with
      | .duration =>
          -- v.Type().AssignableTo(durationType) holds; try the suffixed
          -- parse, otherwise fall through to the Int64 kind case.
          match parseGoDuration s with
          | some d => (.durv d, none)
          | none =>
              match parseInt64 s with
              | some n =>
                  if overflowInt 64 n then (cur, some (.convertType "" (typeName ty) s))
                  else (.durv n, none)
              | none => (cur, some (.convertType "" (typeName ty) s))
      | .ptr e =>
          -- create a new pointer to a zero value, recurse, assign the
          -- pointer; the recursive call's error is discarded.
          let inner := setVal u jdec e (zeroVal e) false "" "" s
          (.ptrv (some inner.1), none)
      | .slice e =>
          -- split on commas, make a slice of that length, set each
          -- element; the recursive calls' errors are discarded.
          let l := goSplitComma s
          (.slicev (l.map fun w => (setVal u jdec e (zeroVal e) false "" "" w).1), none)
      | .string => (.str s, none)
      | .bool =>
          match parseGoBool s with
          | some b => (.boolean b, none)
          | none => (cur, some (.convertType "" (typeName ty) s))
      | .int bits =>
          match parseInt64 s with
          | some n =>
              if overflowInt bits n then (cur, some (.convertType "" (typeName ty) s))
              else (.intv n, none)
          | none => (cur, some (.convertType "" (typeName ty) s))
      | .uint bits =>
          match parseUint64 s with
          | some n =>
              if overflowUint bits n then (cur, some (.convertType "" (typeName ty) s))
              else (.uintv n, none)
          | none => (cur, some (.convertType "" (typeName ty) s))
      | .custom => (cur, none)
      | .unsupported => (cur, none)

/-- `set` on a `field`, returning the new slot contents and the error. -/
def set (u : String → Except String Val) (jdec : String → Ty → Option Val)
    (f : field) (s : String) : Val × Option SetError :=
  setVal u jdec f.ty f.value f.json f.fieldName f.fieldTypeName s

/-- The slice of `reflect.StructField` the tag parser reads: the declared
field name and the value of its `ssm` tag. -/
structure structField where
  name : String
  ssmTag : String
deriving DecidableEq, Repr

/-- The source's `TagParseError`: the raw tag text and the field name. -/
structure TagParseError where
  tag : String
  fieldName : String
deriving DecidableEq, Repr

/-- `TagParseError.Error()`. -/
def tagParseErrorMessage (e : TagParseError) : String :=
  "failed to parse tag [" ++ e.tag ++ "] for field " ++ e.fieldName

/-- The descriptor part of a parsed `field` (key and option flags),
before the walker attaches the slot and metadata. -/
structure FieldDesc where
  key : String
  decrypt : Bool
  json : Bool
deriving DecidableEq, Repr

/-- The source's `newField`: trims the key, sets the decrypt flag. -/
def newField (key : String) (decrypt : Bool) : FieldDesc :=
  { key := goTrim key, decrypt := decrypt, json := false }

/-- Modelled from the spec: the external `text/template` rendering of a
key (outside this repository).  With no templating parameters
substitution is a no-op and the raw key is used verbatim; with parameters
each `\x7b\x7b.name\x7d\x7d` placeholder is replaced by the named value;
a render failure retains the original key, so the function is total. -/
def renderKey (data : Option (List (String × String))) (key : String) : String :=
  match data with
  | none => key
  | some ps =>
      ps.foldl (fun k p => k.replace ("\x7b\x7b." ++ p.1 ++ "\x7d\x7d") p.2) key

/-- The source's `tag`: empty or `"-"` annotations produce no descriptor;
otherwise split on commas, trim segment 0 as the key (failing with a
`TagParseError` if it is empty), render the key template, then scan the
remaining segments for the `decrypt` and `json` options (unrecognized
options are ignored). -/
def tag (f : structField) (data : Option (List (String × String))) :
    Except TagParseError (Option FieldDesc) :=
  let t := f.ssmTag
  if t = "" ∨ t = "-" then .ok none
  else
    let o := goSplitComma t
    let fld := newField (goTrim (o.headD "")) false
    if fld.key = "" then .error ⟨t, f.name⟩
    else
      let fld := { fld with key := renderKey data fld.key }
      let fld :=
        (o.drop 1).foldl
          (fun fl opt =>
            match goTrim opt with
            | "decrypt" => { fl with decrypt := true }
            | "json" => { fl with json := true }
            | _ => fl)
          fld
      .ok (some fld)

/-- Go's parallel assignment `f[i], f[j] = f[j], f[i]` on a list. -/
def listSwap [Inhabited α] (l : List α) (i j : Nat) : List α :=
  (l.set i (l.getD j default)).set j (l.getD i default)

/-- The source's in-place half stable partition `partitionFields`:
advance `i` to the first element satisfying `suffix`, then for each later
`j` holding a non-`suffix` element swap it down to position `i`; return
the two halves `f[:i]` and `f[i:]`.  The second Go loop
(`for j := i+1; j < len(f); j++`) is the fold over
`List.range' (i+1) (len-(i+1))`. -/
def partitionFields [Inhabited α] (f : List α) (suffix : α → Bool) :
    List α × List α :=
  let i0 := f.findIdx suffix
  let st :=
    (List.range' (i0 + 1) (f.length - (i0 + 1))).foldl
      (fun (st : List α × Nat) j =>
        if !suffix (st.1.getD j default) then (listSwap st.1 st.2 j, st.2 + 1)
        else st)
      (f, i0)
  (st.1.take st.2, st.1.drop st.2)

/-- The successive slices `f[i:j]` visited by `batchIterateFields`'s loop
for batch size `k + 1`; `fuel` bounds the iteration count (the loop
advances by at least one element per step, so `f.length` is always
enough). -/
def batchSlicesFuel (k : Nat) : Nat → List α → List (List α)
  | _, [] => []
  | 0, _ :: _ => []
  | fuel + 1, x :: xs => (x :: xs).take (k + 1) :: batchSlicesFuel k fuel (xs.drop k)

/-- The list of contiguous batches of `batchSize` (last one possibly
shorter) that the source's loop presents to its callback.  The source
loops forever when `batchSize ≤ 0`; the model is meaningful only for
positive sizes (`0` is mapped to no batches). -/
def batchSlices (batchSize : Nat) (f : List α) : List (List α) :=
  match batchSize with
  | 0 => []
  | k + 1 => batchSlicesFuel k f.length f

/-- Loop body chain of the source's `batchIterateFields`: call `g` on
each successive slice, stopping at the first error. -/
def batchIterateFuel (k : Nat) (g : List α → Option ε) : Nat → List α → Option ε
  | _, [] => none
  | 0, _ :: _ => none
  | fuel + 1, x :: xs =>
      match g ((x :: xs).take (k + 1)) with
      | some e => some e
      | none => batchIterateFuel k g fuel (xs.drop k)

/-- The source's `batchIterateFields`: iterate `g` over the batches,
returning the first error (`none` = the source's `nil` return).  As with
`batchSlices`, only positive batch sizes are modelled. -/
def batchIterateFields (f : List α) (batchSize : Nat) (g : List α → Option ε) :
    Option ε :=
  match batchSize with
  | 0 => none
  | k + 1 => batchIterateFuel k g f.length f

/-- First error of `g` along a list of batches. -/
def firstBatchError (g : List α → Option ε) : List (List α) → Option ε
  | [] => none
  | b :: bs =>
      match g b with
      | some e => some e
      | none => firstBatchError g bs

/-- The store's `GetParameters` response: found parameters as
(name, value) pairs plus the list of invalid (not-found) names. -/
structure GetParametersOutput where
  parameters : List (String × String)
  invalidParameters : List String
deriving DecidableEq, Repr

/-- Errors surfaced by the fetch/convert pipeline. -/
inductive LoadError where
  | storeErr (msg : String)
  | invalidParams (msg : String)
  | keyNotLoaded (key : String)
  | fieldErr (e : SetError)
deriving DecidableEq, Repr

/-- The source's `parameterNames`. -/
def parameterNames (f : List field) : List String :=
  f.map (·.key)

/-- The source's `indexParameters`: a name-keyed map built by insertion,
later entries overwriting earlier ones. -/
def indexParameters (params : List (String × String)) : String → Option String :=
  fun k => params.foldl (fun acc p => if p.1 = k then some p.2 else acc) none

/-- The source's `getParameters`: one `GetParameters` call against the
store `c` (an external collaborator, modelled as a function); a store
error propagates; a response with any invalid parameters fails with an
error naming them all, joined by `", "`. -/
def getParameters (c : List String → Bool → Except String GetParametersOutput)
    (f : List field) (decrypt : Bool) : Except LoadError (List (String × String)) :=
  match c (parameterNames f) decrypt with
  | .error e => .error (.storeErr e)
  | .ok res =>
      if res.invalidParameters ≠ [] then
        .error (.invalidParams ("invalid parameters: " ++ goJoin ", " res.invalidParameters))
      else .ok res.parameters

/-- The loader's enrichment of a `ConvertTypeError` with the field name
(`err.Field = x.field.Name`); other errors pass through unchanged. -/
def enrichFieldError (e : SetError) (name : String) : SetError :=
  match e with
  | .convertType _ t v => .convertType name t v
  | e => e

/-- The per-field loop of `loadParameters`: look each field's key up in
the indexed response, failing when absent, otherwise `set` its value,
failing on (and enriching) a conversion error.  Returns the post-loop
field states together with the first error, so partial mutation is
observable. -/
def setLoop (u : String → Except String Val) (jdec : String → Ty → Option Val)
    (idx : String → Option String) : List field → List field × Option LoadError
  | [] => ([], none)
  | x :: rest =>
      match idx x.key with
      | none => (x :: rest, some (.keyNotLoaded x.key))
      | some v =>
          let r := set u jdec x v
          let x' := { x with value := r.1 }
          match r.2 with
          | some e => (x' :: rest, some (.fieldErr (enrichFieldError e x.fieldName)))
          | none =>
              let t := setLoop u jdec idx rest
              (x' :: t.1, t.2)

/-- The source's `loadParameters`: fetch the batch, then run the set
loop; a fetch failure (store error or invalid parameters) returns before
any field is touched. -/
def loadParameters (c : List String → Bool → Except String GetParametersOutput)
    (u : String → Except String Val) (jdec : String → Ty → Option Val)
    (f : List field) (decrypt : Bool) : List field × Option LoadError :=
  match getParameters c f decrypt with
  | .error e => (f, some e)
  | .ok params => setLoop u jdec (indexParameters params) f

/-- Declared Go types for the `Load` argument check: a named struct type,
two representative non-aggregate base types, and pointers. -/
inductive GoType where
  | structT
  | intT
  | stringT
  | ptrT (elem : GoType)
deriving DecidableEq, Repr

/-- Whether the type's `reflect.Kind` is `Ptr`. -/
def GoType.isPtr : GoType → Bool
  | .ptrT _ => true
  | _ => false

/-- `reflect.Type.String()` for the argument-check universe (the struct
type prints as its name `T`). -/
def GoType.typeString : GoType → String
  | .structT => "T"
  | .intT => "int"
  | .stringT => "string"
  | .ptrT e => "*" ++ e.typeString

/-- `InvalidTypeError.Error()`: `nil` type, non-pointer type, or pointer
type, exactly as the source's three branches. -/
def invalidTypeErrorMessage : Option GoType → String
  | none => "nil type"
  | some t =>
      if !t.isPtr then "non-pointer Load(" ++ t.typeString ++ ")"
      else "invalid type " ++ t.typeString

/-- The shapes an `interface{}` argument to `Load` can take: the nil
interface, a non-pointer value of type `t`, a typed nil pointer `*t`, or
a non-nil pointer to a value of type `t`. -/
inductive LoadArg where
  | nilInterface
  | nonPtrValue (t : GoType)
  | nilPointer (elem : GoType)
  | pointerTo (elem : GoType)
deriving DecidableEq, Repr

/-- `reflect.TypeOf(v)` for each argument shape (`none` = nil type). -/
def LoadArg.reflectType : LoadArg → Option GoType
  | .nilInterface => none
  | .nonPtrValue t => some t
  | .nilPointer e => some (.ptrT e)
  | .pointerTo e => some (.ptrT e)

/-- What `LoadWithParameters` does with the argument before any field is
read or written: return `InvalidTypeError` when the kind is not `Ptr` or
the pointer is nil, otherwise hand `rv.Elem()` to `walk` — whose first
action, `v.NumField()`, panics at runtime when the element is not a
struct. -/
inductive LoadOutcome where
  | invalidType (t : Option GoType)
  | panicNumField (elem : GoType)
  | proceeds (elem : GoType)
deriving DecidableEq, Repr

/-- The argument validation at the top of `Load`/`LoadWithParameters`
(`rv.Kind() != reflect.Ptr || rv.IsNil()`), followed by the hand-off to
`walk`.  An `invalidType` outcome is returned before the walker runs, so
the record is not mutated on that path. -/
def loadEntry : LoadArg → LoadOutcome
  | .nilInterface => .invalidType none
  | .nonPtrValue t => .invalidType (some t)
  | .nilPointer e => .invalidType (some (.ptrT e))
  | .pointerTo e => if e = .structT then .proceeds e else .panicNumField e

/-- Whether the outcome is an `InvalidTypeError` return. -/
def isInvalidTypeOutcome : LoadOutcome → Bool
  | .invalidType _ => true
  | _ => false

mutual
/-- Types the walker traverses: a non-struct non-pointer leaf kind, a
pointer, or a struct with a list of declared fields. -/
inductive WTy where
  | base
  | ptr (elem : WTy)
  | struct_ (fields : WFields)
deriving Repr
/-- A struct's declared fields: name, exported flag (`PkgPath == ""`),
raw `ssm` annotation, and declared type, in declaration order. -/
inductive WFields where
  | nil
  | cons (name : String) (exported : Bool) (ssmTag : String) (ty : WTy) (rest : WFields)
deriving Repr
end

/-- Runtime values for the walker universe; a pointer is either nil or
holds a target value. -/
inductive WVal where
  | baseV
  | ptrV (target : Option WVal)
  | structV (elems : List WVal)
deriving Repr

mutual
/-- The zero value of a walker type. -/
def zeroW : WTy → WVal
  | .base => .baseV
  | .ptr _ => .ptrV none
  | .struct_ fs => .structV (zeroWFields fs)
/-- Zero values of a field list. -/
def zeroWFields : WFields → List WVal
  | .nil => []
  | .cons _ _ _ t rest => zeroW t :: zeroWFields rest
end

mutual
/-- Whether a value is the zero value of the given type. -/
def isZeroOf : WTy → WVal → Bool
  | .base, .baseV => true
  | .ptr _, .ptrV none => true
  | .struct_ fs, .structV ws => isZeroFields fs ws
  | _, _ => false
/-- Pointwise `isZeroOf` over a field list. -/
def isZeroFields : WFields → List WVal → Bool
  | .nil, [] => true
  | .cons _ _ _ t rest, w :: ws => isZeroOf t w && isZeroFields rest ws
  | _, _ => false
end

/-- The source's `walk`, processing a struct's declared fields against
its current field values and returning the post-traversal values and the
collected descriptors.  Per field: unexported fields are skipped
untouched; a pointer field is unconditionally re-set to a freshly
allocated zero target (`fv.Set(reflect.New(...)); fv = Indirect(fv)`) and
all further handling applies to that target; then the tag is parsed
(errors abort the whole walk), a produced descriptor makes the field a
leaf (no recursion into its substructure), and otherwise a struct-typed
target is walked recursively with its descriptors spliced in. -/
def walkFields (data : Option (List (String × String))) :
    WFields → List WVal → Except TagParseError (List WVal × List FieldDesc)
  | .nil, vs => .ok (vs, [])
  | .cons _ _ _ _ _, [] => .ok ([], [])
  | .cons name exported tg ty rest, v :: vs =>
      if exported = false then
        match walkFields data rest vs with
        | .error e => .error e
        | .ok (vs', ds) => .ok (v :: vs', ds)
      else
        match tag ⟨name, tg⟩ data with
        | .error e => .error e
        | .ok (some pf) =>
            -- leaf binding: a pointer field has been re-set to a fresh
            -- zero target; the substructure is not traversed.
            match walkFields data rest vs with
            | .error e => .error e
            | .ok (vs', ds) =>
                match ty with
                | .ptr e => .ok (WVal.ptrV (some (zeroW e)) :: vs', pf :: ds)
                | .base => .ok (v :: vs', pf :: ds)
                | .struct_ _ => .ok (v :: vs', pf :: ds)
        | .ok none =>
            match ty with
            | .ptr pe =>
                match pe with
                | .struct_ gs =>
                    -- allocated fresh zero target, then walked as a struct
                    match walkFields data gs (zeroWFields gs) with
                    | .error e => .error e
                    | .ok (ws', ds1) =>
                        match walkFields data rest vs with
                        | .error e => .error e
                        | .ok (vs', ds2) =>
                            .ok (WVal.ptrV (some (.structV ws')) :: vs', ds1 ++ ds2)
                | .base =>
                    -- allocated fresh zero target of a non-struct type:
                    -- nothing further to do with it
                    match walkFields data rest vs with
                    | .error er => .error er
                    | .ok (vs', ds) =>
                        .ok (WVal.ptrV (some (zeroW WTy.base)) :: vs', ds)
                | .ptr pe2 =>
                    match walkFields data rest vs with
                    | .error er => .error er
                    | .ok (vs', ds) =>
                        .ok (WVal.ptrV (some (zeroW (WTy.ptr pe2))) :: vs', ds)
            | .struct_ gs =>
                match walkFields data gs
                    (match v with | .structV ws => ws | _ => []) with
                | .error e => .error e
                | .ok (ws', ds1) =>
                    match walkFields data rest vs with
                    | .error e => .error e
                    | .ok (vs', ds2) => .ok (WVal.structV ws' :: vs', ds1 ++ ds2)
            | .base =>
                match walkFields data rest vs with
                | .error e => .error e
                | .ok (vs', ds) => .ok (v :: vs', ds)
termination_by fs _ => sizeOf fs
decreasing_by
  all_goals simp only [WFields.cons.sizeOf_spec, WTy.ptr.sizeOf_spec,
    WTy.struct_.sizeOf_spec]
  all_goals omega

/-- The allocation invariant claimed for the walker's output state,
along exactly the traversal the walker performs: an unexported field is
skipped; an exported pointer field must hold an allocated (non-nil)
target which is either still the freshly allocated zero value (tagged
leaves and pointers to non-structs are never traversed further) or, for
a pointer to a struct, a struct value satisfying the invariant
recursively; an exported struct field with a descriptor-producing tag is
a leaf, and one without is checked recursively. -/
inductive Allocated (data : Option (List (String × String))) :
    WFields → List WVal → Prop where
  | nil (vs : List WVal) : Allocated data .nil vs
  | noVals (name : String) (exported : Bool) (tg : String) (ty : WTy)
      (rest : WFields) : Allocated data (.cons name exported tg ty rest) []
  | unexported (name tg : String) (ty : WTy) (rest : WFields) (v : WVal)
      (vs : List WVal) : Allocated data rest vs →
      Allocated data (.cons name false tg ty rest) (v :: vs)
  | baseField (name tg : String) (rest : WFields) (v : WVal)
      (vs : List WVal) : Allocated data rest vs →
      Allocated data (.cons name true tg .base rest) (v :: vs)
  | ptrZero (name tg : String) (e : WTy) (rest : WFields) (w : WVal)
      (vs : List WVal) : isZeroOf e w = true → Allocated data rest vs →
      Allocated data (.cons name true tg (.ptr e) rest) (.ptrV (some w) :: vs)
  | ptrStruct (name tg : String) (gs : WFields) (rest : WFields)
      (ws : List WVal) (vs : List WVal) : Allocated data gs ws →
      Allocated data rest vs →
      Allocated data (.cons name true tg (.ptr (.struct_ gs)) rest)
        (.ptrV (some (.structV ws)) :: vs)
  | structTagged (name tg : String) (gs : WFields) (rest : WFields)
      (pf : FieldDesc) (v : WVal) (vs : List WVal) :
      tag ⟨name, tg⟩ data = .ok (some pf) → Allocated data rest vs →
      Allocated data (.cons name true tg (.struct_ gs) rest) (v :: vs)
  | structWalked (name tg : String) (gs : WFields) (rest : WFields)
      (ws : List WVal) (vs : List WVal) : Allocated data gs ws →
      Allocated data rest vs →
      Allocated data (.cons name true tg (.struct_ gs) rest)
        (.structV ws :: vs)

/-! ## Batching lemmas (C4) -/

lemma batchSlicesFuel_join (k : Nat) :
    ∀ (fuel : Nat) (f : List α), f.length ≤ fuel →
      (batchSlicesFuel k fuel f).flatten = f := by
  intro fuel
  induction fuel with
  | zero =>
      intro f hf
      cases f with
      | nil => rfl
      | cons x xs => simp at hf
  | succ n ih =>
      intro f hf
      cases f with
      | nil => rfl
      | cons x xs =>
          have h2 : (xs.drop k).length ≤ n := by
            simp only [List.length_drop]
            simp at hf
            omega
          simp only [batchSlicesFuel, List.flatten_cons, ih _ h2, List.take_succ_cons,
            List.cons_append, List.take_append_drop]

lemma batchSlicesFuel_mem (k : Nat) :
    ∀ (fuel : Nat) (f : List α) (b : List α), b ∈ batchSlicesFuel k fuel f →
      b ≠ [] ∧ b.length ≤ k + 1 := by
  intro fuel
  induction fuel with
  | zero =>
      intro f b hb
      cases f with
      | nil => simp [batchSlicesFuel] at hb
      | cons x xs => simp [batchSlicesFuel] at hb
  | succ n ih =>
      intro f b hb
      cases f with
      | nil => simp [batchSlicesFuel] at hb
      | cons x xs =>
          simp only [batchSlicesFuel, List.mem_cons] at hb
          rcases hb with hb | hb
          · subst hb
            refine ⟨by simp [List.take_succ_cons], ?_⟩
            simp only [List.length_take, List.length_cons]
            omega
          · exact ih _ _ hb

lemma batchSlicesFuel_ne_nil (k fuel : Nat) (x : α) (xs : List α) :
    batchSlicesFuel k (fuel + 1) (x :: xs) ≠ [] := by
  simp [batchSlicesFuel]

lemma batchSlicesFuel_dropLast (k : Nat) :
    ∀ (fuel : Nat) (f : List α) (b : List α),
      f.length ≤ fuel → b ∈ (batchSlicesFuel k fuel f).dropLast →
      b.length = k + 1 := by
  intro fuel
  induction fuel with
  | zero =>
      intro f b hf hb
      cases f with
      | nil => simp [batchSlicesFuel] at hb
      | cons x xs => simp at hf
  | succ n ih =>
      intro f b hf hb
      cases f with
      | nil => simp [batchSlicesFuel] at hb
      | cons x xs =>
          simp only [batchSlicesFuel] at hb
          cases hdrop : xs.drop k with
          | nil =>
              -- only one batch, dropLast is empty
              cases hfuel : batchSlicesFuel k n (xs.drop k) with
              | nil => rw [hfuel] at hb; simp at hb
              | cons c cs =>
                  rw [hdrop] at hfuel
                  cases n <;> simp [batchSlicesFuel] at hfuel
          | cons y ys =>
              -- the head batch is full, the tail continues
              have hne : batchSlicesFuel k n (xs.drop k) ≠ [] := by
                rw [hdrop]
                cases n with
                | zero =>
                    exfalso
                    simp only [List.length_cons] at hf
                    have hlen := congrArg List.length hdrop
                    simp only [List.length_drop, List.length_cons] at hlen
                    omega
                | succ m => exact batchSlicesFuel_ne_nil k m y ys
              rw [List.dropLast_cons_of_ne_nil hne, List.mem_cons] at hb
              rcases hb with hb | hb
              · subst hb
                have hlen := congrArg List.length hdrop
                simp only [List.length_drop, List.length_cons] at hlen
                simp only [List.length_take, List.length_cons]
                omega
              · refine ih _ _ ?_ hb
                simp only [List.length_drop]
                simp at hf
                omega

lemma batchIterateFuel_eq_firstBatchError (k : Nat) (g : List α → Option ε) :
    ∀ (fuel : Nat) (f : List α), f.length ≤ fuel →
      batchIterateFuel k g fuel f = firstBatchError g (batchSlicesFuel k fuel f) := by
  intro fuel
  induction fuel with
  | zero =>
      intro f hf
      cases f with
      | nil => rfl
      | cons x xs => simp at hf
  | succ n ih =>
      intro f hf
      cases f with
      | nil => rfl
      | cons x xs =>
          have h2 : (xs.drop k).length ≤ n := by
            simp only [List.length_drop]
            simp at hf
            omega
          simp only [batchIterateFuel, batchSlicesFuel, firstBatchError, ih _ h2]

/-- C4: for every input list and positive maximum batch size,
`batchIterateFields` visits contiguous slices of the input in original
order (their concatenation is the input), every slice is nonempty and at
most the maximum, every slice but the last is exactly the maximum, a
zero-length input yields zero batches, the callback is applied to exactly
those slices in order (first error wins), and 23 descriptors with max 10
batch as sizes 10, 10, 3. -/
theorem c4_batch_sizes {α : Type} (n : Nat) (f : List α) (hn : 0 < n) :
    (batchSlices n f).flatten = f ∧
    (∀ b ∈ batchSlices n f, b ≠ [] ∧ b.length ≤ n) ∧
    (∀ b ∈ (batchSlices n f).dropLast, b.length = n) ∧
    (f = [] → batchSlices n f = []) ∧
    (∀ (ε : Type) (g : List α → Option ε),
        batchIterateFields f n g = firstBatchError g (batchSlices n f)) ∧
    (batchSlices 10 (List.range 23)).map List.length = [10, 10, 3] := by
  obtain ⟨k, rfl⟩ : ∃ k, n = k + 1 := ⟨n - 1, by omega⟩
  refine ⟨?_, ?_, ?_, ?_, ?_, ?_⟩
  · exact batchSlicesFuel_join k f.length f le_rfl
  · intro b hb
    exact batchSlicesFuel_mem k f.length f b hb
  · intro b hb
    exact batchSlicesFuel_dropLast k f.length f b le_rfl hb
  · intro h
    subst h
    rfl
  · intro ε g
    exact batchIterateFuel_eq_firstBatchError k g f.length f le_rfl
  · decide

/-- Witness for C4: batch size 10 over 23 elements. -/
theorem c4_batch_sizes_witness :
    0 < 10 ∧ (batchSlices 10 (List.range 23)).flatten = List.range 23 :=
  ⟨by decide, (c4_batch_sizes 10 (List.range 23) (by decide)).1⟩

/-- C7: when the bound type declares the custom `UnmarshalParameter`
capability and the descriptor's `json` flag is set, `set` fails with the
configuration-conflict error naming the field and its declared type, the
slot keeps its current contents, and the result is the same for every
custom decoder `u` and JSON decoder `jdec` — neither decoding is
attempted. -/
theorem c7_unmarshaler_json_conflict (u : String → Except String Val)
    (jdec : String → Ty → Option Val) (f : field) (s : String)
    (hu : hasUnmarshaler f.ty = true) (hj : f.json = true) :
    set u jdec f s =
      (f.value, some (.configConflict f.fieldName f.fieldTypeName)) := by
  have hty : f.ty = .custom ∨ f.ty = .ptr .custom := by
    cases h : f.ty with
    | ptr e =>
        rw [h] at hu
        cases e <;> simp_all [hasUnmarshaler]
    | _ => rw [h] at hu ; simp_all [hasUnmarshaler]
  show setVal u jdec f.ty f.value f.json f.fieldName f.fieldTypeName s = _
  rcases hty with h | h <;> rw [h, hj] <;> rfl

/-- Witness for C7: a `json`-flagged field of the custom type. -/
theorem c7_unmarshaler_json_conflict_witness :
    hasUnmarshaler Ty.custom = true ∧
    set (fun _ => .error "boom") (fun _ _ => none)
        ⟨"k", false, true, .custom, .customv none, "Test", "figgy.str"⟩ "x" =
      (.customv none, some (.configConflict "Test" "figgy.str")) :=
  ⟨rfl, c7_unmarshaler_json_conflict _ _
    ⟨"k", false, true, .custom, .customv none, "Test", "figgy.str"⟩ "x" rfl rfl⟩

/-- C10: for a pointer-typed slot (without a custom unmarshaller in its
method set) the converter always succeeds: it binds the slot to a freshly
allocated target holding whatever the recursive conversion produced,
discarding the recursive conversion's error; in particular when the text
does not parse as the pointed-to integer type the slot ends up pointing
at a zero-valued target with no error reported. -/
theorem c10_ptr_set_discards_inner_error (u : String → Except String Val)
    (jdec : String → Ty → Option Val) (e : Ty) (cur : Val)
    (fname ftyName s : String) (he : hasUnmarshaler (Ty.ptr e) = false) :
    setVal u jdec (.ptr e) cur false fname ftyName s =
      (.ptrv (some (setVal u jdec e (zeroVal e) false "" "" s).1), none) ∧
    (∀ bits, parseInt64 s = none →
        setVal u jdec (.ptr (.int bits)) cur false fname ftyName s =
          (.ptrv (some (.intv 0)), none)) := by
  constructor
  · conv_lhs => rw [setVal]
    simp [he]
  · intro bits hs
    conv_lhs => rw [setVal]
    simp only [hasUnmarshaler, Bool.false_eq_true, if_false, reduceCtorEq]
    rw [setVal]
    simp [hs, zeroVal, hasUnmarshaler]

/-- Witness for C10: text that fails integer conversion still yields a
successful pointer binding to a zero target. -/
theorem c10_ptr_set_discards_inner_error_witness :
    hasUnmarshaler (Ty.ptr (.int 64)) = false ∧ parseInt64 "abc" = none ∧
    setVal (fun _ => .error "boom") (fun _ _ => none) (.ptr (.int 64))
        (.ptrv none) false "" "" "abc" = (.ptrv (some (.intv 0)), none) :=
  ⟨rfl, rfl,
    (c10_ptr_set_discards_inner_error (fun _ => .error "boom") (fun _ _ => none)
      (.int 64) (.ptrv none) "" "" "abc" rfl).2 64 rfl⟩

/-- C2 counterexample: converting `"a"` into an `[]int64` slot fails at
the element level (the element conversion reports a `ConvertTypeError`),
yet the slice conversion discards that failure and returns success with a
zero-valued element — the element-level failure does not propagate. -/
theorem c2_counterexample :
    setVal (fun _ => .error "boom") (fun _ _ => none) (.slice (.int 64))
        (.slicev []) false "" "" "a" = (.slicev [.intv 0], none) ∧
    (setVal (fun _ => .error "boom") (fun _ _ => none) (.int 64)
        (zeroVal (.int 64)) false "" "" "a").2 =
      some (.convertType "" "int64" "a") :=
  ⟨rfl, rfl⟩

/-- C2 amended: for every slice-typed slot the converter splits the text
on commas, allocates a sequence of that length, and converts each element
independently; but an element-level failure is discarded — the failing
element keeps its zero value and the whole slice conversion returns
success unconditionally. -/
theorem c2_slice_conversion (u : String → Except String Val)
    (jdec : String → Ty → Option Val) (e : Ty) (cur : Val)
    (fname ftyName s : String) :
    setVal u jdec (.slice e) cur false fname ftyName s =
      (.slicev ((goSplitComma s).map
          fun w => (setVal u jdec e (zeroVal e) false "" "" w).1), none) ∧
    ((goSplitComma s).map
        fun w => (setVal u jdec e (zeroVal e) false "" "" w).1).length =
      (goSplitComma s).length := by
  constructor
  · conv_lhs => rw [setVal]
    simp [hasUnmarshaler]
  · simp

/-- C6: for a duration-typed slot, the raw nanosecond text
`"3600000000000"` and the unit-suffixed text `"3600s"` convert
successfully to the same duration value; and in general whenever the
suffixed duration parse fails, the converter falls through to base-10
64-bit integer parsing of the text as a nanosecond count. -/
theorem c6_duration_fallthrough (u : String → Except String Val)
    (jdec : String → Ty → Option Val) (cur : Val) (fname ftyName : String) :
    setVal u jdec .duration cur false fname ftyName "3600000000000" =
      (.durv 3600000000000, none) ∧
    setVal u jdec .duration cur false fname ftyName "3600s" =
      (.durv 3600000000000, none) ∧
    (∀ s : String, parseGoDuration s = none →
        setVal u jdec .duration cur false fname ftyName s =
          (match parseInt64 s with
           | some n =>
               if overflowInt 64 n then
                 (cur, some (.convertType "" (typeName .duration) s))
               else (.durv n, none)
           | none => (cur, some (.convertType "" (typeName .duration) s)))) := by
  refine ⟨rfl, rfl, ?_⟩
  intro s hs
  conv_lhs => rw [setVal]
  simp [hasUnmarshaler, hs]

/-- Witness for C6: the raw nanosecond text takes the numeric fallback
path (its suffixed parse fails) and produces the same value as the
suffixed text. -/
theorem c6_duration_fallthrough_witness :
    parseGoDuration "3600000000000" = none ∧
    setVal (fun _ => .error "boom") (fun _ _ => none) .duration (.durv 0)
        false "" "" "3600000000000" = (.durv 3600000000000, none) :=
  ⟨rfl,
    (c6_duration_fallthrough (fun _ => .error "boom") (fun _ _ => none)
      (.durv 0) "" "").1⟩

/-! ## Trimming lemmas (C5) -/

lemma dropWhile_dropWhile (p : α → Bool) (l : List α) :
    (l.dropWhile p).dropWhile p = l.dropWhile p := by
  cases h : l.dropWhile p with
  | nil => rfl
  | cons c t =>
      have hc := List.head?_dropWhile_not p l
      rw [h] at hc
      simp only [List.head?_cons] at hc
      simp [List.dropWhile_cons, hc]

lemma goTrim_idem (s : String) : goTrim (goTrim s) = goTrim s := by
  unfold goTrim
  set p := Char.isWhitespace with hp
  set L := s.data.dropWhile p with hL
  set D := (L.reverse.dropWhile p).reverse with hD
  have step1 : D.dropWhile p = D := by
    have hsuf : L.reverse.dropWhile p <:+ L.reverse := List.dropWhile_suffix p
    have hpre : D <+: L := by
      have := List.reverse_prefix.mpr hsuf
      rwa [List.reverse_reverse] at this
    cases hDc : D with
    | nil => rfl
    | cons c t =>
        obtain ⟨r, hr⟩ := hpre
        rw [hDc] at hr
        have hc := List.head?_dropWhile_not p s.data
        rw [← hL, ← hr] at hc
        simp only [List.cons_append, List.head?_cons] at hc
        simp [List.dropWhile_cons, hc]
  show String.mk ((((String.mk D).data.dropWhile p).reverse.dropWhile p).reverse) = String.mk D
  simp only [step1]
  have : D.reverse.dropWhile p = D.reverse := by
    rw [hD, List.reverse_reverse]
    exact dropWhile_dropWhile p L.reverse
  rw [this, List.reverse_reverse]

/-- C5: tag parsing with no templating parameters.  An empty or `"-"`
annotation produces no descriptor and no error; an annotation with no
comma (its comma-split is the singleton of itself) that trims to a
nonempty key produces a descriptor whose key is the trimmed text with
both flags false; an annotation whose first comma-segment trims to the
empty string (other than the empty annotation itself) fails with a
`TagParseError` carrying the raw annotation and the field's name. -/
theorem c5_tag_no_comma (t fname : String) :
    ((t = "" ∨ t = "-") → tag ⟨fname, t⟩ none = .ok none) ∧
    (goSplitComma t = [t] → t ≠ "" → t ≠ "-" → goTrim t ≠ "" →
        tag ⟨fname, t⟩ none = .ok (some ⟨goTrim t, false, false⟩)) ∧
    (t ≠ "" → goTrim ((goSplitComma t).headD "") = "" →
        tag ⟨fname, t⟩ none = .error ⟨t, fname⟩) := by
  refine ⟨?_, ?_, ?_⟩
  · intro h
    simp only [tag]
    rw [if_pos h]
  · intro hsplit hne1 hne2 htrim
    have hcond : ¬(t = "" ∨ t = "-") := by simp [hne1, hne2]
    simp only [tag]
    rw [if_neg hcond, hsplit]
    simp only [List.headD_cons, newField, goTrim_idem]
    rw [if_neg htrim]
    rfl
  · intro ht hkey
    have hne2 : t ≠ "-" := by
      intro h
      subst h
      revert hkey
      decide
    have hcond : ¬(t = "" ∨ t = "-") := by simp [ht, hne2]
    have hk : goTrim (goTrim ((goSplitComma t).headD "")) = "" := by
      rw [hkey]
      rfl
    rw [List.headD_eq_head?_getD] at hk
    simp only [tag]
    rw [if_neg hcond]
    simp [newField, hk]

/-- Witness for C5: a padded key annotation parses to its trimmed key
with both flags false, and the annotation `","` fails with a
`TagParseError`. -/
theorem c5_tag_no_comma_witness :
    (goSplitComma " key " = [" key "] ∧ goTrim " key " ≠ "" ∧
      tag ⟨"F", " key "⟩ none = .ok (some ⟨"key", false, false⟩)) ∧
    ("," ≠ "" ∧ goTrim (((goSplitComma ",").headD "")) = "" ∧
      tag ⟨"F", ","⟩ none = .error ⟨",", "F"⟩) :=
  ⟨⟨rfl, by decide,
      (c5_tag_no_comma " key " "F").2.1 rfl (by decide) (by decide) (by decide)⟩,
   ⟨by decide, rfl,
      (c5_tag_no_comma "," "F").2.2 (by decide) rfl⟩⟩

/-- C8: a batch fetch whose store response reports a non-empty list of
invalid (not-found) keys makes `loadParameters` fail with an error whose
message names all the not-found keys joined by `", "`, and leaves every
field of the batch untouched — no conversion or assignment happens. -/
theorem c8_invalid_parameters_fatal
    (c : List String → Bool → Except String GetParametersOutput)
    (u : String → Except String Val) (jdec : String → Ty → Option Val)
    (f : List field) (decrypt : Bool) (ps : List (String × String))
    (ks : List String) (hc : c (parameterNames f) decrypt = .ok ⟨ps, ks⟩)
    (hks : ks ≠ []) :
    loadParameters c u jdec f decrypt =
      (f, some (.invalidParams ("invalid parameters: " ++ goJoin ", " ks))) := by
  unfold loadParameters getParameters
  rw [hc]
  simp [hks]

/-- Witness for C8: a store responding with two not-found keys fails the
batch with both keys named and returns the fields unchanged. -/
theorem c8_invalid_parameters_fatal_witness :
    ((fun (_ : List String) (_ : Bool) =>
        (.ok ⟨[], ["a", "b"]⟩ : Except String GetParametersOutput))
      (parameterNames []) false = .ok ⟨[], ["a", "b"]⟩) ∧
    (["a", "b"] ≠ ([] : List String)) ∧
    loadParameters (fun _ _ => .ok ⟨[], ["a", "b"]⟩) (fun _ => .error "boom")
        (fun _ _ => none) [] false =
      ([], some (.invalidParams "invalid parameters: a, b")) :=
  ⟨rfl, by decide,
    c8_invalid_parameters_fatal (fun _ _ => .ok ⟨[], ["a", "b"]⟩)
      (fun _ => .error "boom") (fun _ _ => none) [] false [] ["a", "b"] rfl
      (by decide)⟩

/-- C3 counterexample: a non-nil pointer to a non-struct value (here
`*int`) is not caught by the argument validation: `Load` does not return
an `InvalidTypeError` for it — the traversal's `v.NumField()` panics
instead. -/
theorem c3_counterexample :
    loadEntry (.pointerTo .intT) = .panicNumField .intT ∧
    isInvalidTypeOutcome (loadEntry (.pointerTo .intT)) = false :=
  ⟨rfl, rfl⟩

/-- C3 amended: a nil argument, a non-pointer argument, and a typed nil
pointer each make `Load`/`LoadWithParameters` return an
`InvalidTypeError` before the walker runs (so the record is untouched),
carrying the declared type — or the nil-type marker for a nil input —
with the nil case distinguishable from the non-pointer case by message;
but a non-nil pointer to a non-aggregate passes the validation and the
traversal panics instead of returning an `InvalidTypeError`. -/
theorem c3_invalid_argument_check (t e : GoType) (ht : t.isPtr = false) :
    loadEntry .nilInterface = .invalidType none ∧
    loadEntry (.nonPtrValue t) = .invalidType (some t) ∧
    loadEntry (.nilPointer e) = .invalidType (some (.ptrT e)) ∧
    invalidTypeErrorMessage none = "nil type" ∧
    invalidTypeErrorMessage (some t) =
      "non-pointer Load(" ++ t.typeString ++ ")" ∧
    invalidTypeErrorMessage (some (.ptrT e)) = "invalid type *" ++ e.typeString ∧
    invalidTypeErrorMessage none ≠ invalidTypeErrorMessage (some t) := by
  refine ⟨rfl, rfl, rfl, rfl, ?_, rfl, ?_⟩
  · simp [invalidTypeErrorMessage, ht]
  · cases t with
    | structT => decide
    | intT => decide
    | stringT => decide
    | ptrT e2 => simp [GoType.isPtr] at ht

/-- Witness for C3 (amended) at a plain `int` argument type. -/
theorem c3_invalid_argument_check_witness :
    GoType.intT.isPtr = false ∧
    loadEntry (.nonPtrValue .intT) = .invalidType (some .intT) ∧
    invalidTypeErrorMessage none ≠ invalidTypeErrorMessage (some .intT) :=
  ⟨rfl, (c3_invalid_argument_check .intT .stringT rfl).2.1,
    (c3_invalid_argument_check .intT .stringT rfl).2.2.2.2.2.2⟩

/-! ## Partition lemmas (C1) -/

lemma getD_at_append [Inhabited α] (A : List α) (x : α) (t : List α) :
    (A ++ x :: t).getD A.length default = x := by
  induction A with
  | nil => rfl
  | cons a A ih =>
      rw [List.cons_append, List.length_cons, List.getD_cons_succ]
      exact ih

lemma set_at_append (A : List α) (x : α) (t : List α) (v : α) :
    (A ++ x :: t).set A.length v = A ++ v :: t := by
  induction A with
  | nil => rfl
  | cons a A ih =>
      rw [List.cons_append, List.length_cons, List.set_cons_succ, ih, List.cons_append]

lemma set_getD_self [Inhabited α] : ∀ (l : List α) (i : Nat),
    l.set i (l.getD i default) = l := by
  intro l
  induction l with
  | nil => intro i; rfl
  | cons a t ih =>
      intro i
      cases i with
      | zero => rfl
      | succ n => simpa using ih n

lemma listSwap_self [Inhabited α] (l : List α) (i : Nat) : listSwap l i i = l := by
  unfold listSwap
  rw [List.set_set, set_getD_self]

lemma listSwap_rotate [Inhabited α] (A : List α) (b : α) (bs : List α) (c : α)
    (r : List α) :
    listSwap (A ++ b :: (bs ++ c :: r)) A.length (A.length + (bs.length + 1)) =
      A ++ c :: (bs ++ b :: r) := by
  unfold listSwap
  have h1 : A ++ b :: (bs ++ c :: r) = (A ++ b :: bs) ++ c :: r := by
    simp
  have hlen1 : A.length + (bs.length + 1) = (A ++ b :: bs).length := by
    simp
  have hgj : (A ++ b :: (bs ++ c :: r)).getD (A.length + (bs.length + 1)) default = c := by
    rw [h1, hlen1]
    exact getD_at_append _ _ _
  have hgi : (A ++ b :: (bs ++ c :: r)).getD A.length default = b :=
    getD_at_append _ _ _
  rw [hgj, hgi, set_at_append]
  have h2 : A ++ c :: (bs ++ c :: r) = (A ++ c :: bs) ++ c :: r := by
    simp
  have hlen2 : A.length + (bs.length + 1) = (A ++ c :: bs).length := by
    simp
  rw [h2, hlen2, set_at_append]
  simp

lemma findIdx_decomp (p : α → Bool) (f : List α) :
    (f.findIdx p = f.length ∧ ∀ b ∈ f, p b = false) ∨
    ∃ A c r, f = A ++ c :: r ∧ f.findIdx p = A.length ∧
      (∀ b ∈ A, p b = false) ∧ p c = true := by
  induction f with
  | nil => exact Or.inl ⟨rfl, by simp⟩
  | cons a t ih =>
      by_cases h : p a
      · exact Or.inr ⟨[], a, t, rfl, by simp [List.findIdx_cons, h], by simp, h⟩
      · rcases ih with ⟨hlen, hall⟩ | ⟨A, c, r, hf, hidx, hA, hc⟩
        · refine Or.inl ⟨?_, ?_⟩
          · simp [List.findIdx_cons, h, hlen]
          · intro b hb
            rcases List.mem_cons.mp hb with hb | hb
            · subst hb
              simpa using h
            · exact hall b hb
        · refine Or.inr ⟨a :: A, c, r, by simp [hf], ?_, ?_, hc⟩
          · simp [List.findIdx_cons, h, hidx]
          · intro b hb
            rcases List.mem_cons.mp hb with hb | hb
            · subst hb
              simpa using h
            · exact hA b hb

/-- The second loop of `partitionFields`, characterized: starting from a
state `A ++ B ++ rest` with boundary `A.length`, where `B` holds only
predicate-true elements, the loop moves the predicate-false elements of
`rest` down in order and leaves some permutation of the predicate-true
elements above the boundary. -/
lemma partitionLoop_spec [Inhabited α] (p : α → Bool) :
    ∀ (rest B A arr : List α) (i start : Nat),
      arr = A ++ B ++ rest → i = A.length → start = A.length + B.length →
      (∀ b ∈ B, p b = true) →
      ∃ Bfin : List α,
        (List.range' start rest.length).foldl
            (fun (st : List α × Nat) j =>
              if !p (st.1.getD j default) then (listSwap st.1 st.2 j, st.2 + 1)
              else st)
            (arr, i) =
          (A ++ rest.filter (fun x => !p x) ++ Bfin,
            A.length + (rest.filter (fun x => !p x)).length) ∧
        Bfin.Perm (B ++ rest.filter p) := by
  intro rest
  induction rest with
  | nil =>
      intro B A arr i start harr hi hstart hB
      subst harr hi hstart
      refine ⟨B, ?_, by simp⟩
      simp
  | cons c r ih =>
      intro B A arr i start harr hi hstart hB
      subst harr hi hstart
      simp only [List.length_cons, List.range'_succ, List.foldl_cons]
      have hget : ((A ++ B ++ (c :: r)).getD (A.length + B.length) default) = c := by
        rw [show A.length + B.length = (A ++ B).length from by simp]
        exact getD_at_append _ _ _
      rw [hget]
      by_cases hc : p c
      · -- predicate-true head: no swap, it joins the B segment
        rw [hc]
        simp only [Bool.not_true, Bool.false_eq_true, if_false]
        have hB' : ∀ b ∈ B ++ [c], p b = true := by
          intro b hb
          rcases List.mem_append.mp hb with hb | hb
          · exact hB b hb
          · simp at hb
            subst hb
            exact hc
        obtain ⟨Bfin, heq, hperm⟩ :=
          ih (B ++ [c]) A (A ++ B ++ (c :: r)) A.length (A.length + B.length + 1)
            (by simp)
            rfl
            (by simp only [List.length_append, List.length_cons, List.length_nil]; omega)
            hB'
        refine ⟨Bfin, ?_, ?_⟩
        · rw [heq]
          have hfix : (c :: r).filter (fun x => !p x) = r.filter (fun x => !p x) := by
            simp [hc]
          rw [hfix]
        · refine hperm.trans ?_
          have h2 : (c :: r).filter p = c :: r.filter p := by simp [hc]
          rw [h2]
          simp
      · -- predicate-false head: swap it down to the boundary
        rw [show p c = false from by simpa using hc]
        simp only [Bool.not_false, if_true]
        cases B with
        | nil =>
            have hswap : listSwap (A ++ [] ++ (c :: r)) A.length
                (A.length + ([] : List α).length) = (A ++ [c]) ++ [] ++ r := by
              simp only [List.append_nil, List.length_nil, Nat.add_zero]
              rw [listSwap_self]
              simp
            have hB' : ∀ b ∈ ([] : List α), p b = true := by simp
            obtain ⟨Bfin, heq, hperm⟩ :=
              ih [] (A ++ [c]) ((A ++ [c]) ++ [] ++ r) (A ++ [c]).length
                (A.length + ([] : List α).length + 1) rfl rfl (by simp) hB'
            refine ⟨Bfin, ?_, ?_⟩
            · rw [hswap,
                show A.length + 1 = (A ++ [c]).length from by simp, heq]
              have hfix : (c :: r).filter (fun x => !p x) =
                  c :: r.filter (fun x => !p x) := by
                simp [hc]
              rw [hfix, Prod.ext_iff]
              constructor
              · simp
              · simp only [List.length_append, List.length_cons, List.length_nil]
                omega
            · refine hperm.trans ?_
              have h2 : (c :: r).filter p = r.filter p := by simp [hc]
              rw [h2]
        | cons b bs =>
            have hswap : listSwap (A ++ (b :: bs) ++ (c :: r)) A.length
                (A.length + (b :: bs).length) = (A ++ [c]) ++ (bs ++ [b]) ++ r := by
              rw [show A ++ (b :: bs) ++ (c :: r) = A ++ b :: (bs ++ c :: r) from by simp,
                show A.length + (b :: bs).length = A.length + (bs.length + 1) from by simp,
                listSwap_rotate]
              simp
            have hB' : ∀ x ∈ bs ++ [b], p x = true := by
              intro x hx
              have hmem : x ∈ b :: bs := by
                rcases List.mem_append.mp hx with hx | hx
                · exact List.mem_cons_of_mem _ hx
                · simp at hx
                  simp [hx]
              exact hB x hmem
            obtain ⟨Bfin, heq, hperm⟩ :=
              ih (bs ++ [b]) (A ++ [c]) ((A ++ [c]) ++ (bs ++ [b]) ++ r)
                (A ++ [c]).length (A.length + (b :: bs).length + 1) rfl rfl
                (by simp; omega) hB'
            refine ⟨Bfin, ?_, ?_⟩
            · rw [hswap,
                show A.length + 1 = (A ++ [c]).length from by simp, heq]
              have hfix : (c :: r).filter (fun x => !p x) =
                  c :: r.filter (fun x => !p x) := by
                simp [hc]
              rw [hfix, Prod.ext_iff]
              constructor
              · simp
              · simp only [List.length_append, List.length_cons, List.length_nil]
                omega
            · refine hperm.trans ?_
              have h2 : (c :: r).filter p = r.filter p := by simp [hc]
              rw [h2]
              have h3 : (bs ++ [b]).Perm (b :: bs) := List.perm_append_singleton b bs
              exact h3.append_right (r.filter p)

/-- C1 counterexample: on input flags `[true, true, false]` the source's
partition returns the predicate-true elements as `[idx1, idx0]` — not in
their original relative order `[idx0, idx1]` — so the second group is not
stable. -/
theorem c1_counterexample :
    partitionFields [(0, true), (1, true), (2, false)] Prod.snd =
      ([(2, false)], [(1, true), (0, true)]) ∧
    (partitionFields [(0, true), (1, true), (2, false)] Prod.snd).2 ≠
      ([(0, true), (1, true), (2, false)].filter Prod.snd) := by
  constructor
  · rfl
  · decide

/-- C1 amended: `partitionFields` is a half stable partition (as its
source comment says): the first output list is exactly the
predicate-false elements in their original relative order, and the
second output list is a permutation of the predicate-true elements —
every element of it satisfies the predicate and the two lists together
are a permutation of the input — but the second group's internal order is
not preserved in general. -/
theorem c1_half_stable_partition {α : Type} [Inhabited α] (f : List α)
    (suffix : α → Bool) :
    (partitionFields f suffix).1 = f.filter (fun x => !suffix x) ∧
    (partitionFields f suffix).2.Perm (f.filter suffix) ∧
    (∀ b ∈ (partitionFields f suffix).2, suffix b = true) ∧
    ((partitionFields f suffix).1 ++ (partitionFields f suffix).2).Perm f := by
  rcases findIdx_decomp suffix f with ⟨hlen, hall⟩ | ⟨A, c, r, hf, hidx, hA, hc⟩
  · -- no predicate-true element at all: the loop never runs
    have hpart : partitionFields f suffix = (f, []) := by
      simp only [partitionFields]
      rw [hlen]
      have hcount : f.length - (f.length + 1) = 0 := by omega
      rw [hcount]
      simp only [List.range'_zero, List.foldl_nil]
      rw [List.take_length, List.drop_length]
    rw [hpart]
    have hfilter : f.filter (fun x => !suffix x) = f :=
      List.filter_eq_self.mpr fun a ha => by simp [hall a ha]
    have hfilter2 : f.filter suffix = [] :=
      List.filter_eq_nil_iff.mpr fun a ha => by simp [hall a ha]
    refine ⟨hfilter.symm, by simp [hfilter2], by simp, by simp⟩
  · subst hf
    obtain ⟨Bfin, heq, hperm⟩ :=
      partitionLoop_spec suffix r [c] A (A ++ c :: r) A.length (A.length + 1)
        (by simp) rfl (by simp) (by simp [hc])
    have hcount : (A ++ c :: r).length - (A.length + 1) = r.length := by
      simp only [List.length_append, List.length_cons]
      omega
    have hpart : partitionFields (A ++ c :: r) suffix =
        (A ++ r.filter (fun x => !suffix x), Bfin) := by
      simp only [partitionFields]
      rw [hidx, hcount, heq]
      rw [Prod.ext_iff]
      constructor
      · exact List.take_left' (by simp)
      · exact List.drop_left' (by simp)
    have hAfilter : A.filter (fun x => !suffix x) = A :=
      List.filter_eq_self.mpr fun a ha => by simp [hA a ha]
    have hAfilter2 : A.filter suffix = [] :=
      List.filter_eq_nil_iff.mpr fun a ha => by simp [hA a ha]
    have hfilter1 : (A ++ c :: r).filter (fun x => !suffix x) =
        A ++ r.filter (fun x => !suffix x) := by
      rw [List.filter_append, hAfilter]
      simp [hc]
    have hfilter2 : (A ++ c :: r).filter suffix = c :: r.filter suffix := by
      rw [List.filter_append, hAfilter2]
      simp [hc]
    refine ⟨?_, ?_, ?_, ?_⟩
    · rw [hpart, hfilter1]
    · rw [hpart, hfilter2]
      simpa using hperm
    · intro b hb
      rw [hpart] at hb
      have hmem : b ∈ [c] ++ r.filter suffix := hperm.mem_iff.mp hb
      rcases List.mem_append.mp hmem with hm | hm
      · simp at hm
        subst hm
        exact hc
      · exact List.of_mem_filter hm
    · rw [hpart]
      have h1 : (A ++ r.filter (fun x => !suffix x) ++ Bfin).Perm
          (A ++ r.filter (fun x => !suffix x) ++ ([c] ++ r.filter suffix)) :=
        hperm.append_left _
      refine h1.trans ?_
      have h2 : (A ++ c :: r).filter suffix ++
          (A ++ c :: r).filter (fun x => !suffix x) |>.Perm (A ++ c :: r) :=
        List.filter_append_perm suffix (A ++ c :: r)
      refine List.Perm.trans ?_ h2
      rw [hfilter1, hfilter2]
      calc (A ++ r.filter (fun x => !suffix x)) ++ ([c] ++ r.filter suffix)
          |>.Perm (([c] ++ r.filter suffix) ++ (A ++ r.filter fun x => !suffix x)) :=
            List.perm_append_comm
        _ = (c :: r.filter suffix) ++ (A ++ r.filter fun x => !suffix x) := by simp

/-! ## Walker allocation lemmas (C9) -/

mutual
theorem isZeroOf_zeroW : ∀ (t : WTy), isZeroOf t (zeroW t) = true
  | .base => rfl
  | .ptr _ => rfl
  | .struct_ fs => isZeroFields_zeroWFields fs
theorem isZeroFields_zeroWFields : ∀ (fs : WFields),
    isZeroFields fs (zeroWFields fs) = true
  | .nil => rfl
  | .cons _ _ _ t rest => by
      show (isZeroOf t (zeroW t) && isZeroFields rest (zeroWFields rest)) = true
      rw [isZeroOf_zeroW t, isZeroFields_zeroWFields rest]
      rfl
end

lemma walkFields_alloc_aux (data : Option (List (String × String))) :
    ∀ (n : Nat) (fs : WFields) (vs vs' : List WVal) (ds : List FieldDesc),
      sizeOf fs ≤ n → walkFields data fs vs = .ok (vs', ds) →
      Allocated data fs vs' := by
  intro n
  induction n with
  | zero =>
      intro fs vs vs' ds hsize h
      cases fs with
      | nil =>
          simp only [walkFields] at h
          cases h
          exact .nil vs
      | cons name exported tg ty rest =>
          exfalso
          have hs := WFields.cons.sizeOf_spec name exported tg ty rest
          omega
  | succ n ih =>
      intro fs vs vs' ds hsize h
      cases fs with
      | nil =>
          simp only [walkFields] at h
          cases h
          exact .nil vs
      | cons name exported tg ty rest =>
          have hrest_size : sizeOf rest ≤ n := by
            have hs := WFields.cons.sizeOf_spec name exported tg ty rest
            omega
          cases vs with
          | nil =>
              have hv : vs' = [] := by
                cases ty with
                | base => simp only [walkFields] at h; cases h; rfl
                | struct_ gs => simp only [walkFields] at h; cases h; rfl
                | ptr pe =>
                    cases pe <;> simp only [walkFields] at h <;> cases h <;> rfl
              subst hv
              exact .noVals name exported tg ty rest
          | cons v vtail =>
              by_cases hexp : exported = false
              · -- unexported field: value untouched, recurse on the rest
                subst hexp
                have key : ∀ (vs1 : List WVal) (ds1 : List FieldDesc),
                    walkFields data rest vtail = .ok (vs1, ds1) →
                    vs' = v :: vs1 → Allocated data
                      (WFields.cons name false tg ty rest) vs' := by
                  intro vs1 ds1 hrec hv
                  subst hv
                  exact .unexported name tg ty rest v vs1
                    (ih rest vtail vs1 ds1 hrest_size hrec)
                cases ty with
                | base =>
                    simp only [walkFields, if_true] at h
                    cases hrec : walkFields data rest vtail with
                    | error e => rw [hrec] at h; simp at h
                    | ok pr =>
                        obtain ⟨vs1, ds1⟩ := pr
                        rw [hrec] at h
                        simp only [Except.ok.injEq, Prod.mk.injEq] at h
                        exact key vs1 ds1 hrec h.1.symm
                | struct_ gs =>
                    cases v <;>
                      (simp only [walkFields, if_true] at h
                       cases hrec : walkFields data rest vtail with
                       | error e => rw [hrec] at h; simp at h
                       | ok pr =>
                           obtain ⟨vs1, ds1⟩ := pr
                           rw [hrec] at h
                           simp only [Except.ok.injEq, Prod.mk.injEq] at h
                           exact key vs1 ds1 hrec h.1.symm)
                | ptr pe =>
                    cases pe <;>
                      (simp only [walkFields, if_true] at h
                       cases hrec : walkFields data rest vtail with
                       | error e => rw [hrec] at h; simp at h
                       | ok pr =>
                           obtain ⟨vs1, ds1⟩ := pr
                           rw [hrec] at h
                           simp only [Except.ok.injEq, Prod.mk.injEq] at h
                           exact key vs1 ds1 hrec h.1.symm)
              · have hexp' : exported = true := by
                  cases exported
                  · exact absurd rfl hexp
                  · rfl
                subst hexp'
                cases htag : tag ⟨name, tg⟩ data with
                | error e =>
                    exfalso
                    cases ty with
                    | base =>
                        simp only [walkFields, Bool.true_eq_false, if_false,
                          htag] at h
                        exact Except.noConfusion h
                    | struct_ gs =>
                        cases v <;>
                          (simp only [walkFields, Bool.true_eq_false, if_false,
                            htag] at h
                           exact Except.noConfusion h)
                    | ptr pe =>
                        cases pe <;>
                          (simp only [walkFields, Bool.true_eq_false, if_false,
                            htag] at h
                           exact Except.noConfusion h)
                | ok pf =>
                    cases pf with
                    | some d =>
                        cases hrec : walkFields data rest vtail with
                        | error e =>
                            exfalso
                            cases ty with
                            | base =>
                                simp only [walkFields, Bool.true_eq_false,
                                  if_false, htag, hrec] at h
                                exact Except.noConfusion h
                            | struct_ gs =>
                                cases v <;>
                                  (simp only [walkFields, Bool.true_eq_false,
                                    if_false, htag] at h
                                   first
                                   | exact Except.noConfusion h
                                   | (rw [hrec] at h
                                      exact Except.noConfusion h))
                            | ptr pe =>
                                cases pe <;>
                                  (simp only [walkFields, Bool.true_eq_false,
                                    if_false, htag, hrec] at h
                                   exact Except.noConfusion h)
                        | ok pr =>
                            obtain ⟨vs1, ds1⟩ := pr
                            have hrest := ih rest vtail vs1 ds1 hrest_size hrec
                            cases ty with
                            | base =>
                                simp only [walkFields, Bool.true_eq_false, if_false, htag, hrec,
                                  Except.ok.injEq, Prod.mk.injEq] at h
                                rw [← h.1]
                                exact .baseField name tg rest v vs1 hrest
                            | struct_ gs =>
                                cases v <;>
                                  (simp only [walkFields, Bool.true_eq_false, if_false, htag, hrec,
                                    Except.ok.injEq, Prod.mk.injEq] at h
                                   rw [← h.1]
                                   exact .structTagged name tg gs rest d _ vs1 htag hrest)
                            | ptr pe =>
                                cases pe <;>
                                  (simp only [walkFields, Bool.true_eq_false, if_false, htag, hrec,
                                    Except.ok.injEq, Prod.mk.injEq] at h
                                   rw [← h.1]
                                   exact .ptrZero name tg _ rest _ vs1
                                     (isZeroOf_zeroW _) hrest)
                    | none =>
                        cases ty with
                        | base =>
                            simp only [walkFields, Bool.true_eq_false, if_false, htag] at h
                            cases hrec : walkFields data rest vtail with
                            | error e => rw [hrec] at h; simp at h
                            | ok pr =>
                                obtain ⟨vs1, ds1⟩ := pr
                                rw [hrec] at h
                                simp only [Except.ok.injEq, Prod.mk.injEq] at h
                                rw [← h.1]
                                exact .baseField name tg rest v vs1
                                  (ih rest vtail vs1 ds1 hrest_size hrec)
                        | struct_ gs =>
                            have hgs_size : sizeOf gs ≤ n := by
                              have h1 := WFields.cons.sizeOf_spec name true tg
                                (WTy.struct_ gs) rest
                              have h2 := WTy.struct_.sizeOf_spec gs
                              omega
                            cases v with
                            | structV ws0 =>
                                simp only [walkFields, Bool.true_eq_false, if_false, htag] at h
                                cases hg : walkFields data gs ws0 with
                                | error e => rw [hg] at h; simp at h
                                | ok prg =>
                                    obtain ⟨ws1, dsg⟩ := prg
                                    rw [hg] at h
                                    cases hrec : walkFields data rest vtail with
                                    | error e => rw [hrec] at h; simp at h
                                    | ok pr =>
                                        obtain ⟨vs1, ds1⟩ := pr
                                        rw [hrec] at h
                                        simp only [Except.ok.injEq, Prod.mk.injEq] at h
                                        rw [← h.1]
                                        exact .structWalked name tg gs rest ws1 vs1
                                          (ih gs ws0 ws1 dsg hgs_size hg)
                                          (ih rest vtail vs1 ds1 hrest_size hrec)
                            | baseV =>
                                simp only [walkFields, Bool.true_eq_false, if_false, htag] at h
                                cases hg : walkFields data gs [] with
                                | error e => rw [hg] at h; simp at h
                                | ok prg =>
                                    obtain ⟨ws1, dsg⟩ := prg
                                    rw [hg] at h
                                    cases hrec : walkFields data rest vtail with
                                    | error e => rw [hrec] at h; simp at h
                                    | ok pr =>
                                        obtain ⟨vs1, ds1⟩ := pr
                                        rw [hrec] at h
                                        simp only [Except.ok.injEq, Prod.mk.injEq] at h
                                        rw [← h.1]
                                        exact .structWalked name tg gs rest ws1 vs1
                                          (ih gs [] ws1 dsg hgs_size hg)
                                          (ih rest vtail vs1 ds1 hrest_size hrec)
                            | ptrV t =>
                                simp only [walkFields, Bool.true_eq_false, if_false, htag] at h
                                cases hg : walkFields data gs [] with
                                | error e => rw [hg] at h; simp at h
                                | ok prg =>
                                    obtain ⟨ws1, dsg⟩ := prg
                                    rw [hg] at h
                                    cases hrec : walkFields data rest vtail with
                                    | error e => rw [hrec] at h; simp at h
                                    | ok pr =>
                                        obtain ⟨vs1, ds1⟩ := pr
                                        rw [hrec] at h
                                        simp only [Except.ok.injEq, Prod.mk.injEq] at h
                                        rw [← h.1]
                                        exact .structWalked name tg gs rest ws1 vs1
                                          (ih gs [] ws1 dsg hgs_size hg)
                                          (ih rest vtail vs1 ds1 hrest_size hrec)
                        | ptr pe =>
                            cases pe with
                            | struct_ gs =>
                                have hgs_size : sizeOf gs ≤ n := by
                                  have h1 := WFields.cons.sizeOf_spec name true tg
                                    (WTy.ptr (WTy.struct_ gs)) rest
                                  have h2 := WTy.ptr.sizeOf_spec (WTy.struct_ gs)
                                  have h3 := WTy.struct_.sizeOf_spec gs
                                  omega
                                simp only [walkFields, Bool.true_eq_false, if_false, htag] at h
                                cases hg : walkFields data gs (zeroWFields gs) with
                                | error e => rw [hg] at h; simp at h
                                | ok prg =>
                                    obtain ⟨ws1, dsg⟩ := prg
                                    rw [hg] at h
                                    cases hrec : walkFields data rest vtail with
                                    | error e => rw [hrec] at h; simp at h
                                    | ok pr =>
                                        obtain ⟨vs1, ds1⟩ := pr
                                        rw [hrec] at h
                                        simp only [Except.ok.injEq, Prod.mk.injEq] at h
                                        rw [← h.1]
                                        exact .ptrStruct name tg gs rest ws1 vs1
                                          (ih gs (zeroWFields gs) ws1 dsg hgs_size hg)
                                          (ih rest vtail vs1 ds1 hrest_size hrec)
                            | base =>
                                simp only [walkFields, Bool.true_eq_false, if_false, htag] at h
                                cases hrec : walkFields data rest vtail with
                                | error e => rw [hrec] at h; simp at h
                                | ok pr =>
                                    obtain ⟨vs1, ds1⟩ := pr
                                    rw [hrec] at h
                                    simp only [Except.ok.injEq, Prod.mk.injEq] at h
                                    rw [← h.1]
                                    exact .ptrZero name tg _ rest _ vs1
                                      (isZeroOf_zeroW _)
                                      (ih rest vtail vs1 ds1 hrest_size hrec)
                            | ptr pe2 =>
                                simp only [walkFields, Bool.true_eq_false, if_false, htag] at h
                                cases hrec : walkFields data rest vtail with
                                | error e => rw [hrec] at h; simp at h
                                | ok pr =>
                                    obtain ⟨vs1, ds1⟩ := pr
                                    rw [hrec] at h
                                    simp only [Except.ok.injEq, Prod.mk.injEq] at h
                                    rw [← h.1]
                                    exact .ptrZero name tg _ rest _ vs1
                                      (isZeroOf_zeroW _)
                                      (ih rest vtail vs1 ds1 hrest_size hrec)

/-- C9: whenever the walker completes successfully, its output record
state satisfies the allocation invariant: every accessible (exported)
pointer-typed field encountered along the traversal has been re-bound to
a freshly allocated non-nil target — regardless of whether the field or
its substructure produced any binding descriptor — and a target the
walker did not traverse further is still the zero value it was allocated
with. -/
theorem c9_walk_allocates_pointers (data : Option (List (String × String)))
    (fs : WFields) (vs vs' : List WVal) (ds : List FieldDesc)
    (h : walkFields data fs vs = .ok (vs', ds)) : Allocated data fs vs' :=
  walkFields_alloc_aux data (sizeOf fs) fs vs vs' ds le_rfl h

/-- Witness for C9: two exported pointer fields, one ignored via the
`"-"` annotation (never bound) and one bound to key `k`; both start nil
and both end up allocated with fresh zero targets. -/
theorem c9_walk_allocates_pointers_witness :
    walkFields none
        (.cons "A" true "-" (.ptr .base)
          (.cons "B" true "k" (.ptr .base) .nil))
        [.ptrV none, .ptrV none] =
      .ok ([.ptrV (some .baseV), .ptrV (some .baseV)],
           [⟨"k", false, false⟩]) ∧
    Allocated none
        (.cons "A" true "-" (.ptr .base)
          (.cons "B" true "k" (.ptr .base) .nil))
        [.ptrV (some .baseV), .ptrV (some .baseV)] := by
  have hA : tag ⟨"A", "-"⟩ none = .ok none := rfl
  have hB : tag ⟨"B", "k"⟩ none = .ok (some ⟨"k", false, false⟩) := rfl
  have heval : walkFields none
      (.cons "A" true "-" (.ptr .base)
        (.cons "B" true "k" (.ptr .base) .nil))
      [.ptrV none, .ptrV none] =
      .ok ([.ptrV (some .baseV), .ptrV (some .baseV)],
           [⟨"k", false, false⟩]) := by
    simp only [walkFields, Bool.true_eq_false, if_false, hA, hB, zeroW]
  exact ⟨heval, c9_walk_allocates_pointers none _ _ _ _ heval⟩

end Figgy
